import Mathlib

/-!
Verification development for the MSU Research Security assistant demo
(`MSU_RS_app.py`) and for the fuzzy FAQ match engine described in the
repository design document.  The first half embeds the Python module's
state and operations; the second half models the match engine from the
design document, since its implementation lives outside the provided
source file.
-/

namespace MSURS

/-- The `DocChunk` dataclass: a document chunk with content, source URL,
title, and ISO crawl timestamp. -/
structure DocChunk where
  content : String
  source : String
  title : String
  crawled_at : String
deriving DecidableEq, Repr

/-- `MSU_ROOT` constant from the module. -/
def MSU_ROOT : String :=
  "https://www.morgan.edu/office-of-research-administration/research-compliance/research-security"

/-- `ALLOWED_DOMAINS` constant from the module. -/
def ALLOWED_DOMAINS : List String :=
  ["morgan.edu", "whitehouse.gov", "ostp.gov", "dni.gov", "nsf.gov"]

/-- `DEFAULT_SEED_URLS` constant from the module. -/
def DEFAULT_SEED_URLS : List String :=
  [MSU_ROOT,
   "https://www.whitehouse.gov/ostp/",
   "https://www.dni.gov/",
   "https://new.nsf.gov/"]

/-- `HAVE_LANGCHAIN`: the module's import of `langchain_text_splitters`
fails in the dependency-free fallback configuration modelled here, so the
flag is `false` and all demo code paths are the no-langchain ones. -/
def HAVE_LANGCHAIN : Bool := false

/-- Substring test on character lists: `containsSub pat s` is true iff
`pat` occurs as a contiguous substring of `s`.  This models the Python
expression `d in url`. -/
def containsSub (pat : List Char) : List Char → Bool
  | [] => pat.isEmpty
  | c :: rest => pat.isPrefixOf (c :: rest) || containsSub pat rest

/-- `domain_allowed(url)`: true iff some allowed domain occurs in `url`. -/
def domain_allowed (url : String) : Bool :=
  ALLOWED_DOMAINS.any (fun d => containsSub d.toList url.toList)

/-- Python `str.lower()`: lowercase every character. -/
def lower (s : String) : String := String.mk (s.data.map Char.toLower)

/-- The maximal non-whitespace runs of a character list: the tokens
produced by Python `str.split()` (with no argument). -/
def tokensWS : List Char → List (List Char)
  | [] => []
  | c :: rest =>
    if c.isWhitespace then tokensWS rest
    else (c :: rest.takeWhile (fun d => !d.isWhitespace)) ::
      tokensWS (rest.dropWhile (fun d => !d.isWhitespace))
termination_by s => s.length
decreasing_by
  · simp only [List.length_cons]
    omega
  · simp only [List.length_cons]
    exact Nat.lt_succ_of_le ((List.dropWhile_sublist _).length_le)

/-- Python `str.strip() == ""`: the string is empty or whitespace-only. -/
def isBlank (q : String) : Bool := q.data.all Char.isWhitespace

/-- `sanitize_text(text)`: collapse whitespace runs to single spaces and
strip the ends (the effect of `re.sub(r"\s+", " ", text).strip()`). -/
def sanitize_text (text : String) : String :=
  String.mk (List.intercalate [' '] (tokensWS text.data))

/-- A JSON metadata value as used by the module: the demo path stores a
string (`last_ingest`) and an integer (`doc_count`). -/
inductive MetaVal where
  | str (v : String)
  | num (v : Nat)
deriving DecidableEq, Repr

/-- The metadata dictionary persisted at `META_PATH`. -/
abbrev Meta := List (String × MetaVal)

/-- Contents of the metadata file: either unreadable/corrupt bytes or a
well-formed JSON dictionary. -/
inductive FileContent where
  | corrupt
  | json (m : Meta)
deriving DecidableEq, Repr

/-- External state touched by the module: the module-level
`INMEMORY_CHUNKS` list, the contents of the file at `META_PATH`
(`none` when the file is missing), whether `DATA_DIR`/`INDEX_DIR`
exist, and the current clock reading used by `ts_now_iso`. -/
structure AppState where
  inmemory_chunks : List DocChunk
  meta_file : Option FileContent
  dirs_exist : Bool
  now : String
deriving DecidableEq, Repr

/-- `load_meta()`: return the parsed dictionary when the file exists and
parses; return the empty dictionary when the file is missing or any
exception occurs while reading/parsing. -/
def load_meta (s : AppState) : Meta :=
  match s.meta_file with
  | none => []
  | some .corrupt => []
  | some (.json m) => m

/-- The failure raised by `open(META_PATH, "w")` when the parent
directory does not exist. -/
inductive IOFailure where
  | fileNotFound
deriving DecidableEq, Repr

/-- `save_meta(meta)`: write the dictionary to `META_PATH`.  Unlike
`load_meta` it has no exception handler: when the index directory is
missing the underlying `open` raises. -/
def save_meta (m : Meta) (s : AppState) : Except IOFailure AppState :=
  if s.dirs_exist then .ok { s with meta_file := some (.json m) }
  else .error .fileNotFound

/-- `ensure_dirs()`: create `DATA_DIR` and `INDEX_DIR`. -/
def ensure_dirs (s : AppState) : AppState := { s with dirs_exist := true }

/-- Python dictionary assignment `meta[k] = v` on the association-list
model of the metadata dictionary. -/
def metaSet (m : Meta) (k : String) (v : MetaVal) : Meta :=
  if m.any (fun p => p.1 == k) then m.map (fun p => if p.1 == k then (k, v) else p)
  else m ++ [(k, v)]

/-- The placeholder text built for each seed URL in `ingest_sources`. -/
def fake_text (url : String) : String :=
  "This is a placeholder summary for " ++ url ++
  ". Replace with real crawl/loader content. Cites MSU Research Security or federal guidance as available."

/-- `ingest_sources(seed_urls)` on the no-langchain demo path: ensure the
directories, load the metadata, append one placeholder chunk per
domain-allowed URL to the module-level store, record `last_ingest` and
`doc_count` in the metadata, write the metadata file, and return the
number of chunks created together with the resulting external state. -/
def ingest_sources (seed_urls : List String) (s : AppState) : Nat × AppState :=
  let s1 := ensure_dirs s
  let meta := load_meta s1
  let now := s1.now
  let newChunks := (seed_urls.filter domain_allowed).map
    (fun url => DocChunk.mk (fake_text url) url url now)
  let s2 : AppState := { s1 with inmemory_chunks := s1.inmemory_chunks ++ newChunks }
  let meta2 := metaSet (metaSet meta "last_ingest" (.str now)) "doc_count"
    (.num s2.inmemory_chunks.length)
  match save_meta meta2 s2 with
  | .ok s3 => (newChunks.length, s3)
  | .error _ => (newChunks.length, s2)

/-- Python's non-overlapping substring count `s.count(tok)` on character
lists, for a non-empty token. -/
def countTok (tok : List Char) : List Char → Nat
  | [] => 0
  | c :: rest =>
    if tok.isPrefixOf (c :: rest) && !tok.isEmpty then
      countTok tok (rest.drop (tok.length - 1)) + 1
    else countTok tok rest
termination_by s => s.length
decreasing_by
  · simp only [List.length_drop, List.length_cons]
    omega
  · simp only [List.length_cons]
    omega

/-- The per-chunk keyword score from `retrieve`:
`sum(ch.content.lower().count(tok) for tok in q.split())`, where `q` is
the already-lowercased query. -/
def chunk_score (q : String) (ch : DocChunk) : Nat :=
  (tokensWS q.data).foldl (fun acc tok => acc + countTok tok (lower ch.content).data) 0

/-- `retrieve(query, k)`: if the module-level store is empty, first run
`ingest_sources(DEFAULT_SEED_URLS)`; then score every stored chunk by
naive keyword counting, sort stably by descending score, slice the first
`k`, keep those with score `>= 0`, and return the chunks together with
the (possibly mutated) external state. -/
def retrieve (query : String) (k : Nat) (s : AppState) : List DocChunk × AppState :=
  let s1 := if s.inmemory_chunks.isEmpty then (ingest_sources DEFAULT_SEED_URLS s).2 else s
  let q := lower query
  let scored := s1.inmemory_chunks.map (fun ch => (chunk_score q ch, ch))
  let sorted := scored.mergeSort (fun a b => decide (b.1 ≤ a.1))
  (((sorted.take k).filter (fun p => decide (0 ≤ p.1))).map (fun p => p.2), s1)

/-- The fixed header of the demo answer built by `synthesize_answer`. -/
def answer_header : String :=
  "**Assistant (demo):**\nI found guidance related to your question below. This demo uses stubbed text; wire it to your approved LLM and embeddings for production.\n\n"

/-- One bullet line of the demo answer, per chunk. -/
def bullet_line (ch : DocChunk) : String :=
  "- From **" ++ ch.title ++ "** (crawled " ++ ch.crawled_at ++ "): _" ++
  sanitize_text (String.mk (ch.content.data.take 180)) ++ "…_"

/-- `synthesize_answer(query, chunks)`: build the markdown answer and the
citation list; citations are `(title, source)` pairs collected in chunk
order, and with no chunks the body is the fixed no-sources line. -/
def synthesize_answer (query : String) (chunks : List DocChunk) :
    String × List (String × String) :=
  let bullet_lines := chunks.map bullet_line
  let cites := chunks.map (fun ch => (ch.title, ch.source))
  let body := if bullet_lines.isEmpty then "- No matching sources yet."
    else String.intercalate "\n" bullet_lines
  (answer_header ++ body ++ "\n\n", cites)

/-- Modelled from the spec: a FAQ row of the KnowledgeBase with
`category`, `question`, `answer` fields.  The match engine's
implementation files are not part of the provided source, so the engine
is modelled from the design document. -/
structure KnowledgeEntry where
  category : String
  question : String
  answer : String
deriving DecidableEq, Repr

/-- Modelled from the spec: the tagged `MatchResult` variant
(`Exact`, `Ambiguous`, `Miss`, `NoMatch`). -/
inductive MatchResult where
  | Exact (entry : KnowledgeEntry)
  | Ambiguous (candidates : List KnowledgeEntry) (inferred_category : String)
  | Miss (fallback_candidates : List KnowledgeEntry) (inferred_category : String)
  | NoMatch
deriving DecidableEq, Repr

/-- Length of a longest common subsequence of two character lists; the
"longest matching blocks" mass underlying the similarity ratio. -/
def lcsLength : List Char → List Char → Nat
  | [], _ => 0
  | _ :: _, [] => 0
  | a :: x, b :: y =>
    if a = b then lcsLength x y + 1
    else max (lcsLength (a :: x) y) (lcsLength x (b :: y))
termination_by x y => x.length + y.length

/-- Modelled from the spec: `score(a, b)`, a deterministic, symmetric,
case-insensitive string-similarity ratio in `[0,1]`
(edit-distance / longest-matching-blocks style): twice the common mass
over the total length, and `1` for two empty texts. -/
def score (a b : String) : ℚ :=
  if (lower a).data.length + (lower b).data.length = 0 then 1
  else 2 * (lcsLength (lower a).data (lower b).data : ℚ) /
    (((lower a).data.length : ℚ) + ((lower b).data.length : ℚ))

/-- Modelled from the spec: `best_match(query, candidates)` — score every
candidate's question against the query and return the candidate with the
strictly highest score together with that score; on ties the first
candidate in iteration order wins. -/
def best_match (query : String) : List KnowledgeEntry → Option (KnowledgeEntry × ℚ)
  | [] => none
  | c :: rest =>
    match best_match query rest with
    | none => some (c, score query c.question)
    | some (b, bs) =>
      if bs ≤ score query c.question then some (c, score query c.question)
      else some (b, bs)

/-- Modelled from the spec: the loose search — score every entry, keep
those at or above the cutoff, and return the best `n` of them ordered by
descending score (stably). -/
def loose_search (query : String) (kb : List KnowledgeEntry) (cutoff : ℚ) (n : Nat) :
    List KnowledgeEntry :=
  (((((kb.map (fun c => (score query c.question, c))).mergeSort
    (fun a b => decide (b.1 ≤ a.1))).filter
      (fun p => decide (cutoff ≤ p.1))).take n).map (fun p => p.2))

/-- Modelled from the spec: `classify(query, filtered_kb, global_kb)` —
`NoMatch` on an empty candidate set or blank query; `Exact` at score
`≥ 0.85`; at score `≥ 0.60` a loose search (cutoff `0.4`, up to 3) over
the filtered base giving `Ambiguous` when non-empty; otherwise the same
loose search over the global base giving `Miss` when non-empty and
`NoMatch` when empty. -/
def classify (query : String) (filtered_kb global_kb : List KnowledgeEntry) : MatchResult :=
  if filtered_kb.isEmpty || isBlank query then .NoMatch
  else
    match best_match query filtered_kb with
    | none => .NoMatch
    | some (best_entry, best_score) =>
      if (85 : ℚ)/100 ≤ best_score then .Exact best_entry
      else if (60 : ℚ)/100 ≤ best_score then
        match loose_search query filtered_kb (2/5) 3 with
        | c :: cs => MatchResult.Ambiguous (c :: cs) c.category
        | [] =>
          match loose_search query global_kb (2/5) 3 with
          | [] => MatchResult.NoMatch
          | c :: cs => MatchResult.Miss (c :: cs) c.category
      else
        match loose_search query global_kb (2/5) 3 with
        | [] => MatchResult.NoMatch
        | c :: cs => MatchResult.Miss (c :: cs) c.category

/-! ### Helper lemmas about the longest-common-subsequence mass -/

theorem lcsLength_le_left : ∀ x y : List Char, lcsLength x y ≤ x.length := by
  intro x y
  induction x, y using lcsLength.induct with
  | case1 y => simp [lcsLength]
  | case2 a x => simp [lcsLength]
  | case3 x b y ih =>
    simp [lcsLength]
    omega
  | case4 a x b y hab ih1 ih2 =>
    simp only [lcsLength, if_neg hab, List.length_cons, Nat.max_le]
    simp only [List.length_cons] at ih1
    exact ⟨ih1, by omega⟩

theorem lcsLength_le_right : ∀ x y : List Char, lcsLength x y ≤ y.length := by
  intro x y
  induction x, y using lcsLength.induct with
  | case1 y => simp [lcsLength]
  | case2 a x => simp [lcsLength]
  | case3 x b y ih =>
    simp [lcsLength]
    omega
  | case4 a x b y hab ih1 ih2 =>
    simp only [lcsLength, if_neg hab, List.length_cons, Nat.max_le]
    simp only [List.length_cons] at ih2
    exact ⟨by omega, ih2⟩

theorem lcsLength_self : ∀ x : List Char, lcsLength x x = x.length := by
  intro x
  induction x with
  | nil => simp [lcsLength]
  | cons a x ih => simp [lcsLength, ih]

theorem lcsLength_comm : ∀ x y : List Char, lcsLength x y = lcsLength y x := by
  intro x y
  induction x, y using lcsLength.induct with
  | case1 y => cases y <;> simp [lcsLength]
  | case2 a x => simp [lcsLength]
  | case3 x b y ih =>
    simp [lcsLength, ih]
  | case4 a x b y hab ih1 ih2 =>
    have hba : b ≠ a := fun h => hab h.symm
    simp only [lcsLength, if_neg hab, if_neg hba, ih1, ih2]
    omega

theorem lcsLength_eq_of_ge :
    ∀ x y : List Char, x.length ≤ lcsLength x y → y.length ≤ lcsLength x y → x = y := by
  intro x y
  induction x, y using lcsLength.induct with
  | case1 y =>
    intro _ h2
    simp only [lcsLength] at h2
    exact (List.length_eq_zero.mp (Nat.le_zero.mp h2)).symm
  | case2 a x =>
    intro h1 _
    simp only [lcsLength, List.length_cons] at h1
    omega
  | case3 x b y ih =>
    intro h1 h2
    simp [lcsLength] at h1 h2
    have := ih (by omega) (by omega)
    simp [this]
  | case4 a x b y hab ih1 ih2 =>
    intro h1 h2
    simp only [lcsLength, if_neg hab, List.length_cons] at h1 h2
    have hu : lcsLength (a :: x) y ≤ y.length := lcsLength_le_right _ _
    have hv : lcsLength x (b :: y) ≤ x.length := lcsLength_le_left _ _
    rcases Nat.le_total (lcsLength (a :: x) y) (lcsLength x (b :: y)) with hle | hle
    · rw [Nat.max_eq_right hle] at h1 h2
      omega
    · rw [Nat.max_eq_left hle] at h1 h2
      omega

/-! ### Theorems about the similarity score -/

/-- C4: for every non-empty text `a` the similarity score satisfies
`score a a = 1`, and for every pair of texts the score is a ratio in
`[0, 1]` where `1` holds exactly when the two texts are
character-sequence-identical up to case folding. -/
theorem score_reflexive_ratio_bounds (a b : String) :
    (a ≠ "" → score a a = 1) ∧
    0 ≤ score a b ∧ score a b ≤ 1 ∧
    (score a b = 1 ↔ (lower a).data = (lower b).data) := by
  have key : ∀ u v : String, (lower u).data = (lower v).data → score u v = 1 := by
    intro u v huv
    unfold score
    rw [huv, lcsLength_self]
    split
    · rfl
    · rename_i hne
      have h0 : 0 < (lower v).data.length := by omega
      have hQ : (0 : ℚ) < ((lower v).data.length : ℚ) := by exact_mod_cast h0
      have hq : (((lower v).data.length : ℚ) + ((lower v).data.length : ℚ)) ≠ 0 := by
        linarith
      rw [div_eq_one_iff_eq hq]
      ring
  refine ⟨fun _ => key a a rfl, ?_, ?_, ?_⟩
  · unfold score
    split
    · norm_num
    · rename_i hne
      apply div_nonneg
      · positivity
      · positivity
  · unfold score
    split
    · norm_num
    · rename_i hne
      have hL1 := lcsLength_le_left (lower a).data (lower b).data
      have hL2 := lcsLength_le_right (lower a).data (lower b).data
      have hpos : (0 : ℚ) < ((lower a).data.length : ℚ) + ((lower b).data.length : ℚ) := by
        have : 0 < (lower a).data.length + (lower b).data.length := by omega
        exact_mod_cast this
      rw [div_le_one hpos]
      have : 2 * lcsLength (lower a).data (lower b).data ≤
          (lower a).data.length + (lower b).data.length := by omega
      exact_mod_cast this
  · constructor
    · intro h1
      unfold score at h1
      split at h1
      · rename_i hzero
        have ha : (lower a).data.length = 0 := by omega
        have hb : (lower b).data.length = 0 := by omega
        rw [List.length_eq_zero.mp ha, List.length_eq_zero.mp hb]
      · rename_i hne
        have hpos : (0 : ℚ) < ((lower a).data.length : ℚ) + ((lower b).data.length : ℚ) := by
          have : 0 < (lower a).data.length + (lower b).data.length := by omega
          exact_mod_cast this
        rw [div_eq_one_iff_eq (ne_of_gt hpos)] at h1
        have hnat : 2 * lcsLength (lower a).data (lower b).data =
            (lower a).data.length + (lower b).data.length := by exact_mod_cast h1
        have hL1 := lcsLength_le_left (lower a).data (lower b).data
        have hL2 := lcsLength_le_right (lower a).data (lower b).data
        exact lcsLength_eq_of_ge _ _ (by omega) (by omega)
    · exact key a b

/-- C4 witness: the reflexivity part applied at a concrete non-empty text. -/
theorem score_reflexive_ratio_bounds_witness :
    ("ab" : String) ≠ "" ∧ score "ab" "ab" = 1 :=
  ⟨by decide, (score_reflexive_ratio_bounds "ab" "ab").1 (by decide)⟩

/-- C5: the similarity score is symmetric: `score a b = score b a`. -/
theorem score_symmetric (a b : String) : score a b = score b a := by
  unfold score
  rw [lcsLength_comm, Nat.add_comm ((lower a).data.length),
    add_comm (((lower a).data.length : ℚ))]

/-! ### Helper lemmas about best-match selection and the loose search -/

theorem best_match_first_max (q : String) :
    ∀ cs : List KnowledgeEntry, cs ≠ [] →
      ∃ i : Fin cs.length,
        best_match q cs = some (cs.get i, score q (cs.get i).question) ∧
        (∀ j : Fin cs.length, score q (cs.get j).question ≤ score q (cs.get i).question) ∧
        (∀ j : Fin cs.length, j.1 < i.1 →
          score q (cs.get j).question < score q (cs.get i).question) := by
  intro cs
  induction cs with
  | nil => intro h; exact absurd rfl h
  | cons c rest ih =>
    intro _
    by_cases hr : rest = []
    · subst hr
      refine ⟨⟨0, by simp⟩, ?_, ?_, ?_⟩
      · rfl
      · intro j
        have hj2 := j.2
        simp only [List.length_cons, List.length_nil] at hj2
        have hj0 : j.1 = 0 := by omega
        have : j = ⟨0, by simp⟩ := Fin.ext hj0
        rw [this]
      · intro j hj
        exact absurd hj (Nat.not_lt_zero _)
    · obtain ⟨i', h1, h2, h3⟩ := ih hr
      by_cases hc : score q (rest.get i').question ≤ score q c.question
      · refine ⟨⟨0, by simp⟩, ?_, ?_, ?_⟩
        · show best_match q (c :: rest) = some (c, score q c.question)
          simp only [best_match, h1]
          rw [if_pos hc]
        · intro j
          rcases j with ⟨jv, hjv⟩
          cases jv with
          | zero => exact le_refl _
          | succ jv' =>
            show score q (rest.get ⟨jv', by simpa using hjv⟩).question ≤ score q c.question
            exact le_trans (h2 _) hc
        · intro j hj
          exact absurd hj (Nat.not_lt_zero _)
      · push_neg at hc
        refine ⟨i'.succ, ?_, ?_, ?_⟩
        · show best_match q (c :: rest) =
            some (rest.get i', score q (rest.get i').question)
          simp only [best_match, h1]
          rw [if_neg (not_le.mpr hc)]
        · intro j
          rcases j with ⟨jv, hjv⟩
          cases jv with
          | zero => exact le_of_lt hc
          | succ jv' =>
            show score q (rest.get ⟨jv', by simpa using hjv⟩).question ≤
              score q (rest.get i').question
            exact h2 _
        · intro j hj
          rcases j with ⟨jv, hjv⟩
          cases jv with
          | zero => exact hc
          | succ jv' =>
            show score q (rest.get ⟨jv', by simpa using hjv⟩).question <
              score q (rest.get i').question
            exact h3 _ (by simpa using hj)

theorem pairwise_descending_take_filter (q : String) (scored : List (ℚ × KnowledgeEntry))
    (hmem : ∀ p ∈ scored, p.1 = score q p.2.question) (cutoff : ℚ) (n : Nat) :
    ((((scored.mergeSort (fun a b => decide (b.1 ≤ a.1))).filter
      (fun p => decide (cutoff ≤ p.1))).take n).map (fun p => p.2)).Pairwise
      (fun e1 e2 => score q e2.question ≤ score q e1.question) := by
  rw [List.pairwise_map]
  have hsorted : (scored.mergeSort (fun a b => decide (b.1 ≤ a.1))).Pairwise
      (fun a b => decide (b.1 ≤ a.1)) := by
    apply List.sorted_mergeSort
    · intro a b c hab hbc
      simp only [decide_eq_true_eq] at hab hbc ⊢
      exact le_trans hbc hab
    · intro a b
      rcases le_total a.1 b.1 with h | h <;> simp [h]
  have hsub : List.Sublist
      (((scored.mergeSort (fun a b => decide (b.1 ≤ a.1))).filter
        (fun p => decide (cutoff ≤ p.1))).take n)
      (scored.mergeSort (fun a b => decide (b.1 ≤ a.1))) :=
    List.Sublist.trans (List.take_sublist _ _) (List.filter_sublist _)
  have hPW := hsorted.sublist hsub
  refine List.Pairwise.imp_of_mem ?_ hPW
  intro a b ha hb hab
  have ha2 : a ∈ scored := (List.mergeSort_perm scored _).subset (hsub.subset ha)
  have hb2 : b ∈ scored := (List.mergeSort_perm scored _).subset (hsub.subset hb)
  simp only [decide_eq_true_eq] at hab
  rw [← hmem a ha2, ← hmem b hb2]
  exact hab

theorem loose_search_sorted (q : String) (kb : List KnowledgeEntry) (cutoff : ℚ) (n : Nat) :
    (loose_search q kb cutoff n).Pairwise
      (fun e1 e2 => score q e2.question ≤ score q e1.question) := by
  unfold loose_search
  apply pairwise_descending_take_filter
  intro p hp
  obtain ⟨c, _, hc⟩ := List.mem_map.mp hp
  rw [← hc]

/-- C6: for a non-empty candidate sequence, `best_match` returns the
candidate (and its score) with the strictly highest score, with ties
broken in favor of the first candidate in iteration order; and every
candidate list produced by the loose search is ordered by descending
score. -/
theorem best_match_strict_highest (q : String) (cs : List KnowledgeEntry) (h : cs ≠ []) :
    (∃ i : Fin cs.length,
      best_match q cs = some (cs.get i, score q (cs.get i).question) ∧
      (∀ j : Fin cs.length, score q (cs.get j).question ≤ score q (cs.get i).question) ∧
      (∀ j : Fin cs.length, j.1 < i.1 →
        score q (cs.get j).question < score q (cs.get i).question)) ∧
    (∀ kb cutoff n, (loose_search q kb cutoff n).Pairwise
      (fun e1 e2 => score q e2.question ≤ score q e1.question)) :=
  ⟨best_match_first_max q cs h, fun kb cutoff n => loose_search_sorted q kb cutoff n⟩

/-- C6 witness: the theorem applied at a concrete singleton candidate list. -/
theorem best_match_strict_highest_witness :
    ([KnowledgeEntry.mk "c" "q" "a"] : List KnowledgeEntry) ≠ [] ∧
    ((∃ i : Fin ([KnowledgeEntry.mk "c" "q" "a"] : List KnowledgeEntry).length,
      best_match "q" [KnowledgeEntry.mk "c" "q" "a"] =
        some (([KnowledgeEntry.mk "c" "q" "a"] : List KnowledgeEntry).get i,
          score "q" (([KnowledgeEntry.mk "c" "q" "a"] : List KnowledgeEntry).get i).question) ∧
      (∀ j : Fin ([KnowledgeEntry.mk "c" "q" "a"] : List KnowledgeEntry).length,
        score "q" (([KnowledgeEntry.mk "c" "q" "a"] : List KnowledgeEntry).get j).question ≤
        score "q" (([KnowledgeEntry.mk "c" "q" "a"] : List KnowledgeEntry).get i).question) ∧
      (∀ j : Fin ([KnowledgeEntry.mk "c" "q" "a"] : List KnowledgeEntry).length, j.1 < i.1 →
        score "q" (([KnowledgeEntry.mk "c" "q" "a"] : List KnowledgeEntry).get j).question <
        score "q" (([KnowledgeEntry.mk "c" "q" "a"] : List KnowledgeEntry).get i).question)) ∧
    (∀ kb cutoff n, (loose_search "q" kb cutoff n).Pairwise
      (fun e1 e2 => score "q" e2.question ≤ score "q" e1.question))) :=
  ⟨by decide, best_match_strict_highest "q" [KnowledgeEntry.mk "c" "q" "a"] (by decide)⟩

/-! ### Theorems about classification -/

/-- C2: classification yields `NoMatch` whenever the candidate set is
empty or the query is empty or whitespace-only. -/
theorem classify_empty_or_blank_noMatch (q : String) (fkb gkb : List KnowledgeEntry)
    (h : fkb = [] ∨ isBlank q = true) : classify q fkb gkb = .NoMatch := by
  unfold classify
  rcases h with h | h <;> simp [h]

/-- C2 witness: the theorem applied to the empty knowledge base and to a
whitespace-only query. -/
theorem classify_empty_or_blank_noMatch_witness :
    classify "anything" [] [] = .NoMatch ∧
    classify " " [KnowledgeEntry.mk "c" "q" "a"] [] = .NoMatch :=
  ⟨classify_empty_or_blank_noMatch "anything" [] [] (Or.inl rfl),
   classify_empty_or_blank_noMatch " " [KnowledgeEntry.mk "c" "q" "a"] [] (Or.inr (by decide))⟩

/-- C1: for a non-empty candidate set and non-blank query, classification
is decided by the two-tier thresholds: best score `≥ 0.85` gives `Exact`
with the best entry; otherwise best score `≥ 0.60` gives `Ambiguous` with
the (up to 3) loose-search candidates over the filtered base when that
search is non-empty; otherwise (low score, or empty secondary search) the
loose search over the global base gives `Miss` when non-empty and
`NoMatch` when empty. -/
theorem classify_two_tier_thresholds (q : String) (fkb gkb : List KnowledgeEntry)
    (hf : fkb ≠ []) (hq : isBlank q = false) :
    ∃ e s, best_match q fkb = some (e, s) ∧
      ((85 : ℚ)/100 ≤ s → classify q fkb gkb = .Exact e) ∧
      (¬ (85 : ℚ)/100 ≤ s → (60 : ℚ)/100 ≤ s →
        ∀ c cs, loose_search q fkb (2/5) 3 = c :: cs →
          classify q fkb gkb = .Ambiguous (c :: cs) c.category) ∧
      (¬ (85 : ℚ)/100 ≤ s →
        ((60 : ℚ)/100 ≤ s → loose_search q fkb (2/5) 3 = []) →
        ((loose_search q gkb (2/5) 3 = [] → classify q fkb gkb = .NoMatch) ∧
         (∀ c cs, loose_search q gkb (2/5) 3 = c :: cs →
           classify q fkb gkb = .Miss (c :: cs) c.category))) := by
  obtain ⟨i, h1, -, -⟩ := best_match_first_max q fkb hf
  have hcl : classify q fkb gkb =
      (if (85 : ℚ)/100 ≤ score q (fkb.get i).question then
        MatchResult.Exact (fkb.get i)
      else if (60 : ℚ)/100 ≤ score q (fkb.get i).question then
        match loose_search q fkb (2/5) 3 with
        | c :: cs => MatchResult.Ambiguous (c :: cs) c.category
        | [] =>
          match loose_search q gkb (2/5) 3 with
          | [] => MatchResult.NoMatch
          | c :: cs => MatchResult.Miss (c :: cs) c.category
      else
        match loose_search q gkb (2/5) 3 with
        | [] => MatchResult.NoMatch
        | c :: cs => MatchResult.Miss (c :: cs) c.category) := by
    unfold classify
    rw [h1]
    simp [hq, hf]
  refine ⟨fkb.get i, score q (fkb.get i).question, h1, ?_, ?_, ?_⟩
  · intro h85
    rw [hcl, if_pos h85]
  · intro h85 h60 c cs hcs
    rw [hcl, if_neg h85, if_pos h60, hcs]
  · intro h85 hmiss
    constructor
    · intro hg
      rw [hcl, if_neg h85]
      by_cases h60 : (60 : ℚ)/100 ≤ score q (fkb.get i).question
      · rw [if_pos h60, hmiss h60, hg]
      · rw [if_neg h60, hg]
    · intro c cs hcs
      rw [hcl, if_neg h85]
      by_cases h60 : (60 : ℚ)/100 ≤ score q (fkb.get i).question
      · rw [if_pos h60, hmiss h60, hcs]
      · rw [if_neg h60, hcs]

/-- C1 witness: the theorem applied at a concrete singleton knowledge
base and non-blank query. -/
theorem classify_two_tier_thresholds_witness :
    ([KnowledgeEntry.mk "c" "q" "a"] : List KnowledgeEntry) ≠ [] ∧ isBlank "q" = false ∧
    (∃ e s, best_match "q" [KnowledgeEntry.mk "c" "q" "a"] = some (e, s) ∧
      ((85 : ℚ)/100 ≤ s →
        classify "q" [KnowledgeEntry.mk "c" "q" "a"] [KnowledgeEntry.mk "c" "q" "a"] =
          .Exact e) ∧
      (¬ (85 : ℚ)/100 ≤ s → (60 : ℚ)/100 ≤ s →
        ∀ c cs, loose_search "q" [KnowledgeEntry.mk "c" "q" "a"] (2/5) 3 = c :: cs →
          classify "q" [KnowledgeEntry.mk "c" "q" "a"] [KnowledgeEntry.mk "c" "q" "a"] =
            .Ambiguous (c :: cs) c.category) ∧
      (¬ (85 : ℚ)/100 ≤ s →
        ((60 : ℚ)/100 ≤ s → loose_search "q" [KnowledgeEntry.mk "c" "q" "a"] (2/5) 3 = []) →
        ((loose_search "q" [KnowledgeEntry.mk "c" "q" "a"] (2/5) 3 = [] →
          classify "q" [KnowledgeEntry.mk "c" "q" "a"] [KnowledgeEntry.mk "c" "q" "a"] =
            .NoMatch) ∧
         (∀ c cs, loose_search "q" [KnowledgeEntry.mk "c" "q" "a"] (2/5) 3 = c :: cs →
           classify "q" [KnowledgeEntry.mk "c" "q" "a"] [KnowledgeEntry.mk "c" "q" "a"] =
             .Miss (c :: cs) c.category)))) :=
  ⟨by decide, by decide,
   classify_two_tier_thresholds "q" [KnowledgeEntry.mk "c" "q" "a"]
     [KnowledgeEntry.mk "c" "q" "a"] (by decide) (by decide)⟩

/-! ### Theorems about the module's retrieval, persistence and synthesis -/

theorem filter_nonneg_id (l : List (Nat × DocChunk)) :
    l.filter (fun p => decide (0 ≤ p.1)) = l :=
  List.filter_eq_self.mpr (fun x _ => by simp)

/-- C9: `retrieve` returns exactly `min k n` chunks, where `n` is the
number of chunks stored once the store has been (auto-)populated: every
keyword-count score is a natural number, so the `score >= 0` filter never
excludes a candidate and no cutoff is applied. -/
theorem retrieve_returns_min_k_chunks (q : String) (k : Nat) (s : AppState) :
    (retrieve q k s).1.length = min k (retrieve q k s).2.inmemory_chunks.length := by
  simp only [retrieve, filter_nonneg_id, List.length_map, List.length_take,
    List.length_mergeSort]

/-- C10: the citations returned by `synthesize_answer` are in one-to-one,
order-preserving correspondence with the input chunks — the citation list
has the chunks' length and its `i`-th element is the `i`-th chunk's
`(title, source)` pair — and on no chunks the answer is the fixed
no-sources body with an empty citation list. -/
theorem synthesize_answer_citation_correspondence (q : String) (chunks : List DocChunk) :
    (synthesize_answer q chunks).2.length = chunks.length ∧
    (∀ i : Nat, (synthesize_answer q chunks).2[i]? =
      chunks[i]?.map (fun ch => (ch.title, ch.source))) ∧
    (synthesize_answer q []).2 = [] ∧
    (synthesize_answer q []).1 = answer_header ++ "- No matching sources yet." ++ "\n\n" :=
  ⟨by simp [synthesize_answer],
   fun i => by simp [synthesize_answer, List.getElem?_map],
   rfl, rfl⟩

/-- C8: `load_meta` degrades a missing or unreadable/corrupt metadata
file to the empty dictionary instead of propagating an error (its result
type carries no error case at all). -/
theorem load_meta_degrades_to_empty (s : AppState)
    (h : s.meta_file = none ∨ s.meta_file = some FileContent.corrupt) :
    load_meta s = [] := by
  rcases h with h | h <;> simp [load_meta, h]

/-- C8 witness: the theorem applied to a missing file and a corrupt file. -/
theorem load_meta_degrades_to_empty_witness :
    ((AppState.mk [] none false "T").meta_file = none ∨
      (AppState.mk [] none false "T").meta_file = some FileContent.corrupt) ∧
    load_meta (AppState.mk [] none false "T") = [] ∧
    load_meta (AppState.mk [] (some FileContent.corrupt) false "T") = [] :=
  ⟨Or.inl rfl, load_meta_degrades_to_empty _ (Or.inl rfl),
   load_meta_degrades_to_empty _ (Or.inr rfl)⟩

/-- C3 counterexample: starting from an empty module-level store and a
missing meta file, `retrieve` appends four chunks to the module-level
store and causes the meta file to be written — so retrieval is not pure
with respect to external state. -/
theorem retrieve_mutates_external_state_cex :
    (AppState.mk [] none false "2026-01-01T00:00:00Z").inmemory_chunks.length = 0 ∧
    (AppState.mk [] none false "2026-01-01T00:00:00Z").meta_file = none ∧
    (retrieve "security" 5
      (AppState.mk [] none false "2026-01-01T00:00:00Z")).2.inmemory_chunks.length = 4 ∧
    (retrieve "security" 5
      (AppState.mk [] none false "2026-01-01T00:00:00Z")).2.meta_file ≠ none :=
  ⟨rfl, rfl, by decide, by decide⟩

/-- C3 amended: retrieval mutates no external state when the module-level
store is non-empty (it only reads it); when the store is empty it first
runs `ingest_sources` on the default seed URLs, which appends placeholder
chunks to the module-level store and writes the meta file. -/
theorem retrieve_pure_iff_store_nonempty (q : String) (k : Nat) (s : AppState) :
    (s.inmemory_chunks ≠ [] → (retrieve q k s).2 = s) ∧
    (s.inmemory_chunks = [] →
      (retrieve q k s).2 = (ingest_sources DEFAULT_SEED_URLS s).2) := by
  constructor <;> intro h <;> simp [retrieve, h]

/-- C3 amended witness: the theorem applied at a non-empty store (no
mutation) and at an empty store (ingestion runs). -/
theorem retrieve_pure_iff_store_nonempty_witness :
    ((AppState.mk [DocChunk.mk "c" "s" "t" "n"] none false "T").inmemory_chunks ≠ [] ∧
      (retrieve "q" 5 (AppState.mk [DocChunk.mk "c" "s" "t" "n"] none false "T")).2 =
        AppState.mk [DocChunk.mk "c" "s" "t" "n"] none false "T") ∧
    ((AppState.mk [] none false "T").inmemory_chunks = [] ∧
      (retrieve "q" 5 (AppState.mk [] none false "T")).2 =
        (ingest_sources DEFAULT_SEED_URLS (AppState.mk [] none false "T")).2) :=
  ⟨⟨by decide, (retrieve_pure_iff_store_nonempty "q" 5 _).1 (by decide)⟩,
   ⟨rfl, (retrieve_pure_iff_store_nonempty "q" 5 _).2 rfl⟩⟩

/-- C7 counterexample: `save_meta` raises (a file-not-found failure) when
the index directory is missing, and otherwise performs file I/O — it
overwrites the meta file — contradicting "no file I/O, never raises". -/
theorem save_meta_io_cex :
    save_meta [] (AppState.mk [] none false "T") = Except.error IOFailure.fileNotFound ∧
    save_meta [] (AppState.mk [] none true "T") =
      Except.ok (AppState.mk [] (some (FileContent.json [])) true "T") :=
  ⟨rfl, rfl⟩

/-- C7 amended: every operation resolves into a normal result or an error
signal without terminating the process, but `save_meta` does perform file
I/O — it writes the meta file when the index directory exists and signals
a failure when it is missing — and `ingest_sources` (after ensuring the
directories) always completes normally having written the meta file. -/
theorem save_meta_ingest_total_characterization (m : Meta) (s : AppState) :
    (s.dirs_exist = true →
      save_meta m s = Except.ok { s with meta_file := some (FileContent.json m) }) ∧
    (s.dirs_exist = false → save_meta m s = Except.error IOFailure.fileNotFound) ∧
    (∀ urls : List String, (ingest_sources urls s).2.meta_file ≠ none ∧
      (ingest_sources urls s).2.dirs_exist = true) := by
  refine ⟨fun h => ?_, fun h => ?_, fun urls => ?_⟩
  · simp [save_meta, h]
  · simp [save_meta, h]
  · constructor
    · simp [ingest_sources, ensure_dirs, save_meta]
    · simp [ingest_sources, ensure_dirs, save_meta]

/-- C7 amended witness: the theorem applied with the index directory
present (successful write) and missing (error signal). -/
theorem save_meta_ingest_total_characterization_witness :
    ((AppState.mk [] none true "T").dirs_exist = true ∧
      save_meta [] (AppState.mk [] none true "T") =
        Except.ok { AppState.mk [] none true "T" with
          meta_file := some (FileContent.json []) }) ∧
    ((AppState.mk [] none false "T").dirs_exist = false ∧
      save_meta [] (AppState.mk [] none false "T") =
        Except.error IOFailure.fileNotFound) :=
  ⟨⟨rfl, (save_meta_ingest_total_characterization [] _).1 rfl⟩,
   ⟨rfl, (save_meta_ingest_total_characterization [] _).2.1 rfl⟩⟩

end MSURS
